import Mathlib

/-!
# Verification of the picoclaw orchestrator against its specification

This file gives a shallow embedding, in Lean 4, of the parts of the picoclaw
orchestrator that the specification's testable properties talk about:

* the marker-delimited output framer and close-time resolution logic of
  `spawnContainer` (src/container-runner.ts),
* the agent-runner's exit behaviour around the `_close` sentinel
  (container/agent-runner/src/index.ts),
* the output/result forwarding of `handleOutput` and the container-exit
  continuation of `startContainer` (src/index.ts),
* the task-mutation protocol `processTaskIpc` / `computeNextRun` (src/ipc.ts),
* the task scheduler pass (src/task-scheduler.ts),
* the in-memory active-container registry (src/index.ts), and
* `splitMessage` of the Telegram transport (src/telegram.ts).

Conventions of the embedding:

* JavaScript strings processed as byte/char streams are modelled as `List Char`;
  `String.prototype.indexOf` becomes `strIndexOf`, `slice` becomes
  `List.drop`/`List.take` (with the same clamping behaviour for out-of-range
  arguments), `trim` becomes `jsTrim`.
* ISO timestamp strings (`toISOString`) are represented by their epoch
  milliseconds as `Int`; `toISOString` is injective on times, so equalities
  between `next_run` values are faithfully represented.
* External library calls (`CronExpressionParser.parse(..).next()`,
  `new Date(string)`, `Number.parseInt(.., 10)`) and the current clock
  (`Date.now()`) are parameters of the model, collected in `TimeEnv`.
* `JSON.parse` of a frame body is a parameter `jparse` of the stream model;
  a `none` result models the `catch` around `JSON.parse`.
* JavaScript truthiness of optional strings (`if (data.label)` …) is modelled
  by `truthy`: `none` and `some ""` are falsy.
* Fallible operations that in the source `break`/`throw` without writing
  anything are modelled with `Option`: `none` means "no store write happened".
-/

/-! ## Definitions: the shallow embedding of the source -/

/-- Model of `String.prototype.indexOf(pat)`: index of the leftmost occurrence of `pat`
in `s`, or `none` when there is none (JS returns `-1`). -/
def strIndexOf (pat : List Char) : List Char → Option Nat
  | [] => if pat.isPrefixOf ([] : List Char) then some 0 else none
  | c :: rest =>
    if pat.isPrefixOf (c :: rest) then some 0
    else (strIndexOf pat rest).map (· + 1)

/-- The JS whitespace characters relevant to `String.prototype.trim` for the
ASCII output the agent produces. -/
def isJsWhitespace (c : Char) : Bool :=
  c == ' ' || c == '\n' || c == '\t' || c == '\r'

/-- Model of `String.prototype.trim`. -/
def jsTrim (s : List Char) : List Char :=
  ((s.dropWhile isJsWhitespace).reverse.dropWhile isJsWhitespace).reverse

def OUTPUT_START_MARKER : List Char := "---PICOCLAW_OUTPUT_START---".toList

def OUTPUT_END_MARKER : List Char := "---PICOCLAW_OUTPUT_END---".toList

/-- One iteration of the extraction loop: find the start marker, find the end
marker at or after it, cut out the (trimmed) frame body and drop everything up
to and including the end marker.  Returns `none` when the loop exits
(`startIdx === -1`) or suspends (`endIdx === -1`, buffer kept for more data). -/
def drainStep (b : List Char) : Option (List Char × List Char) :=
  match strIndexOf OUTPUT_START_MARKER b with
  | none => none
  | some startIdx =>
    match strIndexOf OUTPUT_END_MARKER (b.drop startIdx) with
    | none => none
    | some e0 =>
      let endIdx := startIdx + e0
      some (jsTrim ((b.drop (startIdx + OUTPUT_START_MARKER.length)).take
              (endIdx - (startIdx + OUTPUT_START_MARKER.length))),
            b.drop (endIdx + OUTPUT_END_MARKER.length))

/-- The full extraction loop: extract frames until no complete frame is left,
with an explicit recursion bound (each extracted frame consumes at least the
end marker, so `b.length` steps always suffice). -/
def drainGo : Nat → List Char → List (List Char) × List Char
  | 0, b => ([], b)
  | fuel + 1, b =>
    match drainStep b with
    | none => ([], b)
    | some (f, b1) =>
      let r := drainGo fuel b1
      (f :: r.1, r.2)

/-- The `for (let startIdx = …)` extraction loop of the stdout handler: the
first component is the list of (trimmed) frame bodies handed to `JSON.parse`,
the second the remaining `parseBuffer`. -/
def drain (b : List Char) : List (List Char) × List Char :=
  drainGo b.length b

/-- Structure `ContainerOutput` (src/types.ts): one parsed worker frame.  `result = none`
models JSON `null`; absent optional fields are `none`. -/
structure ContainerOutput where
  status : String
  result : Option String
  newSessionId : Option String
  error : Option String
  type : Option String
deriving DecidableEq, Repr

/-- The mutable state of the stdout `data` handler in `spawnContainer`:
the pending `parseBuffer`, the last truthy `newSessionId` seen, the
`hadStreamingOutput` flag, and the frames chained onto `outputChain`
(i.e. delivered, in order, to the `onOutput` callback). -/
structure StreamState where
  parseBuffer : List Char
  newSessionId : Option String
  hadStreamingOutput : Bool
  delivered : List ContainerOutput
deriving DecidableEq, Repr

/-- Effect of one successfully parsed frame (the `try` body of the stdout
handler): record a truthy `newSessionId`, set `hadStreamingOutput`, and chain
the frame onto `outputChain` for serialized delivery to `onOutput`. -/
def applyFrame (st : StreamState) (parsed : ContainerOutput) : StreamState :=
  { st with
    newSessionId :=
      match parsed.newSessionId with
      | some s => if s = "" then st.newSessionId else some s
      | none => st.newSessionId
    hadStreamingOutput := true
    delivered := st.delivered ++ [parsed] }

/-- Applying `JSON.parse` to one extracted frame body: parse failures are caught and
the frame skipped with a warning. -/
def frameFold (jparse : List Char → Option ContainerOutput)
    (st : StreamState) (cand : List Char) : StreamState :=
  match jparse cand with
  | some parsed => applyFrame st parsed
  | none => st

/-- The character-level part of one `data` event of the stdout stream (with an
`onOutput` callback registered): the argument `chunk` is the ALREADY-DECODED
result of `data.toString()` for that one event; append it to `parseBuffer`,
extract every complete frame, and process each through `JSON.parse`.  The
byte-level handler, including the per-event UTF-8 decode, is `runByteStream`. -/
def onData (jparse : List Char → Option ContainerOutput)
    (st : StreamState) (chunk : List Char) : StreamState :=
  let res := drain (st.parseBuffer ++ chunk)
  { res.1.foldl (frameFold jparse) st with parseBuffer := res.2 }

def initialStreamState : StreamState := ⟨[], none, false, []⟩

/-- The streaming state after a sequence of stdout chunks has been delivered. -/
def runStream (jparse : List Char → Option ContainerOutput)
    (chunks : List (List Char)) : StreamState :=
  chunks.foldl (onData jparse) initialStreamState

/-- Template interpolation `${code}` for the exit code of the `close` event
(`null` when the process was killed by a signal). -/
def jsCodeString : Option Int → String
  | none => "null"
  | some n => toString n

/-- The `close` handler of `spawnContainer` (src/container-runner.ts):
how the `result` promise is resolved from the timeout flag, the streaming
state, the exit code, and — in the non-streaming fallback — a scan of the
full captured stdout for the first marker-delimited frame. -/
def resolveOnClose (timedOut hadStreamingOutput : Bool)
    (newSessionId : Option String) (code : Option Int) (hasOnOutput : Bool)
    (stdout : List Char) (jparse : List Char → Option ContainerOutput) :
    ContainerOutput :=
  if timedOut && hadStreamingOutput then
    ⟨"success", none, newSessionId, none, none⟩
  else if timedOut then
    ⟨"error", none, none, some "Container timed out", none⟩
  else if code ≠ some 0 then
    ⟨"error", none, none, some ("Container exited with code " ++ jsCodeString code), none⟩
  else if hasOnOutput then
    ⟨"success", none, newSessionId, none, none⟩
  else
    match strIndexOf OUTPUT_START_MARKER stdout, strIndexOf OUTPUT_END_MARKER stdout with
    | some startIdx, some endIdx =>
      match jparse (jsTrim ((stdout.drop (startIdx + OUTPUT_START_MARKER.length)).take
          (endIdx - (startIdx + OUTPUT_START_MARKER.length)))) with
      | some parsed => parsed
      | none => ⟨"success", none, newSessionId, none, none⟩
    | _, _ => ⟨"success", none, newSessionId, none, none⟩

/-- Exit code of the agent-runner process (container/agent-runner/src/index.ts):
the process exits normally (code 0) when its query loop ends — including when
it ends because `shouldClose` consumed the `_close` sentinel — and exits 1 when
the query loop throws (the `catch` block writes an error frame and calls
`process.exit(1)`).  Whether the close sentinel was consumed does not enter
the exit-code computation. -/
def workerExitCode (sentinelConsumed queryThrew : Bool) : Int :=
  if queryThrew then 1 else 0

/-- The "last session id reported in any frame": fold over the delivered
frames keeping the last truthy `newSessionId`. -/
def lastSessionStep (acc : Option String) (o : ContainerOutput) : Option String :=
  match o.newSessionId with
  | some s => if s = "" then acc else some s
  | none => acc

/-- A concrete parsed frame for exercising the non-streaming fallback. -/
def c3Frame : ContainerOutput := ⟨"success", some "hi", none, none, none⟩

/-- Captured stdout holding exactly one well-formed marker-delimited frame. -/
def c3Stdout : List Char := OUTPUT_START_MARKER ++ "X".toList ++ OUTPUT_END_MARKER

/-- A `JSON.parse` behaviour that parses that frame body successfully. -/
def c3Jparse : List Char → Option ContainerOutput :=
  fun s => if s = "X".toList then some c3Frame else none

/-- JS truthiness of an optional string: `undefined`/`null` and `""` are falsy. -/
def truthy : Option String → Bool
  | none => false
  | some s => !(s == "")

/-- Structure `SessionData` (src/types.ts). -/
structure SessionDataM where
  sessionId : String
  lastActivity : Int
  model : Option String
deriving DecidableEq, Repr

/-- Association-list lookup, modelling `sessions[chatId]` /`Map.get`. -/
def alGet {V : Type} (k : String) : List (String × V) → Option V
  | [] => none
  | (k2, v) :: rest => if k2 = k then some v else alGet k rest

/-- Association-list update, modelling `sessions[chatId] = …` / `Map.set`:
replace the first binding of `k`, or append a fresh one. -/
def alSet {V : Type} (k : String) (v : V) : List (String × V) → List (String × V)
  | [] => [(k, v)]
  | (k2, v2) :: rest => if k2 = k then (k, v) :: rest else (k2, v2) :: alSet k v rest

/-- Model of `handleOutput(chatId, output)` (src/index.ts): persist a truthy
`newSessionId`, and dispatch `output.result` to the chat iff it is truthy.
(Typing/idle-timer bookkeeping has no chat-message effect and is omitted.)
Returns the new sessions store and the list of texts sent to the chat. -/
def handleOutputStep (now : Int) (sessions : List (String × SessionDataM))
    (chatId : String) (output : ContainerOutput) :
    List (String × SessionDataM) × List String :=
  let sessions1 :=
    match output.newSessionId with
    | some s =>
      if s = "" then sessions
      else alSet chatId ⟨s, now, (alGet chatId sessions).bind (fun sd => sd.model)⟩ sessions
    | none => sessions
  match output.result with
  | some r => if r = "" then (sessions1, []) else (sessions1, [r])
  | none => (sessions1, [])

/-- The `result.then((finalOutput) => …)` continuation of `startContainer`
(src/index.ts): persists a truthy `finalOutput.newSessionId`, and on
`finalOutput.status === "error"` only calls `log.error` — it sends NO message
to the chat; no branch of the continuation dispatches any text. -/
def finalizeStep (now : Int) (sessions : List (String × SessionDataM))
    (chatId : String) (finalOutput : ContainerOutput) :
    List (String × SessionDataM) × List String :=
  let sessions1 :=
    match finalOutput.newSessionId with
    | some s =>
      if s = "" then sessions
      else alSet chatId ⟨s, now, (alGet chatId sessions).bind (fun sd => sd.model)⟩ sessions
    | none => sessions
  (sessions1, [])

/-- Deliver the streamed frames of one container run through `handleOutput`
in order, threading the sessions store. -/
def handleOutputsLoop (now : Int) (chatId : String) :
    List (String × SessionDataM) → List ContainerOutput →
      List (String × SessionDataM) × List String
  | sessions, [] => (sessions, [])
  | sessions, o :: rest =>
    let r := handleOutputStep now sessions chatId o
    let r2 := handleOutputsLoop now chatId r.1 rest
    (r2.1, r.2 ++ r2.2)

/-- All texts the chat receives from one container run: those from the
streamed frames, followed by those from the exit continuation. -/
def containerRunMessages (now : Int) (sessions : List (String × SessionDataM))
    (chatId : String) (frames : List ContainerOutput)
    (finalOutput : ContainerOutput) : List String :=
  let r := handleOutputsLoop now chatId sessions frames
  r.2 ++ (finalizeStep now r.1 chatId finalOutput).2

/-- The external time facilities used by src/ipc.ts and src/task-scheduler.ts:
`Date.now()`, `CronExpressionParser.parse(v).next()` (`none` models the parse
throwing), `new Date(v).getTime()` (`none` models `NaN`), and
`Number.parseInt(v, 10)` (`none` models `NaN`).  Timestamps are epoch ms. -/
structure TimeEnv where
  now : Int
  cronNext : String → Option Int
  parseDate : String → Option Int
  parseIntDec : String → Option Int

/-- Structure `ScheduledTask` (src/types.ts).  `next_run` is the ISO timestamp
represented as epoch ms (`none` = JSON `null`); `created_at` likewise. -/
structure ScheduledTask where
  id : String
  chatId : String
  label : Option String
  prompt : String
  schedule_type : String
  schedule_value : String
  next_run : Option Int
  status : String
  created_at : Int
deriving DecidableEq, Repr

/-- Model of `computeNextRun(schedule_type, schedule_value)` (src/ipc.ts): `cron` via
the cron parser (`null` on a parse error), `interval` via
`Number.parseInt(…, 10)` (`null` on `NaN` or a non-positive value, else
`now + ms`), `once` via `new Date(…)` (`null` on an invalid date), anything
else `null`. -/
def computeNextRun (env : TimeEnv) (schedule_type schedule_value : String) :
    Option Int :=
  if schedule_type = "cron" then env.cronNext schedule_value
  else if schedule_type = "interval" then
    match env.parseIntDec schedule_value with
    | none => none
    | some ms => if ms ≤ 0 then none else some (env.now + ms)
  else if schedule_type = "once" then env.parseDate schedule_value
  else none

/-- The payload of one task-mutation mailbox file (the `data` argument of
`processTaskIpc`); absent JSON fields are `none`. -/
structure TaskIpcData where
  type : String
  taskId : Option String
  label : Option String
  prompt : Option String
  schedule_type : Option String
  schedule_value : Option String
  status : Option String
  chatId : Option String
deriving DecidableEq, Repr

/-- Model of `const chatId = data.chatId || sourceChatId` (src/ipc.ts). -/
def ipcChatId (data : TaskIpcData) (src : String) : String :=
  if truthy data.chatId then data.chatId.getD "" else src

/-- Predicate of `tasks.find(t => t.chatId === chatId && t.label === data.label)`. -/
def labelMatches (chatId lbl : String) (t : ScheduledTask) : Bool :=
  t.chatId == chatId && t.label == some lbl

/-- In-place mutation of the first list element satisfying `p` (the JS code
mutates the object returned by `Array.prototype.find` and writes the same
array back). -/
def updateFirst {α : Type} (p : α → Bool) (f : α → α) : List α → List α
  | [] => []
  | t :: ts => if p t then f t :: ts else t :: updateFirst p f ts

/-- The field updates the `schedule` upsert applies to an existing task. -/
def scheduleUpd (p ty v : String) (nextRun : Option Int) (t : ScheduledTask) :
    ScheduledTask :=
  { t with prompt := p, schedule_type := ty, schedule_value := v,
           next_run := nextRun, status := "active" }

/-- Model of `processTaskIpc(data, sourceChatId, deps)` (src/ipc.ts) as a function on
the task store.  Returns the store written by `deps.writeTasks`, or `none`
when the mutation `break`s without writing (missing/invalid fields, unknown
task id, unknown type).  `freshId` stands for the generated
`task-${Date.now()}-${random}` id. -/
def processTaskIpc (env : TimeEnv) (freshId : String) (data : TaskIpcData)
    (sourceChatId : String) (tasks : List ScheduledTask) :
    Option (List ScheduledTask) :=
  let chatId := ipcChatId data sourceChatId
  if data.type = "schedule" then
    if truthy data.prompt && truthy data.schedule_type && truthy data.schedule_value then
      let p := data.prompt.getD ""
      let ty := data.schedule_type.getD ""
      let v := data.schedule_value.getD ""
      let nextRun := computeNextRun env ty v
      if nextRun = none ∧ ty ≠ "once" then none
      else if truthy data.label ∧ tasks.any (labelMatches chatId (data.label.getD "")) then
        some (updateFirst (labelMatches chatId (data.label.getD ""))
          (scheduleUpd p ty v nextRun) tasks)
      else
        some (tasks ++
          [⟨freshId, chatId, (if truthy data.label then data.label else none),
            p, ty, v, nextRun, "active", env.now⟩])
    else none
  else if data.type = "update" then
    if truthy data.taskId ∧ tasks.any (fun t => t.id == data.taskId.getD "") then
      some (updateFirst (fun t => t.id == data.taskId.getD "")
        (fun t =>
          let t1 := if truthy data.prompt then { t with prompt := data.prompt.getD "" } else t
          let t2 :=
            if data.status = some "active" ∨ data.status = some "paused" then
              { t1 with status := data.status.getD "" }
            else t1
          if truthy data.schedule_type ∧ truthy data.schedule_value then
            match computeNextRun env (data.schedule_type.getD "")
                (data.schedule_value.getD "") with
            | some nr =>
              { t2 with schedule_type := data.schedule_type.getD "",
                        schedule_value := data.schedule_value.getD "",
                        next_run := some nr }
            | none => t2
          else t2) tasks)
    else none
  else if data.type = "delete" then
    if truthy data.taskId ∨ truthy data.label then
      some (tasks.filter (fun t =>
        !((if truthy data.taskId then t.id == data.taskId.getD "" else false)
          || (if truthy data.label then
                t.chatId == chatId && t.label == some (data.label.getD "")
              else false))))
    else none
  else none

/-- A concrete environment for exercising the task protocol: the clock reads
1000, cron and date parsing fail, `parseInt` understands only "3600000". -/
def c6Env : TimeEnv :=
  ⟨1000, fun _ => none, fun _ => none,
   fun s => if s = "3600000" then some 3600000 else none⟩

/-- A concrete labelled hourly `schedule` mutation. -/
def c6Data : TaskIpcData :=
  ⟨"schedule", none, some "standup", some "say hi", some "interval",
   some "3600000", none, none⟩

/-- Whether one pass fires a task: `status === "active"`, truthy `next_run`,
and `new Date(next_run) > now` false, i.e. `next_run ≤ now`. -/
def isDue (env : TimeEnv) (t : ScheduledTask) : Bool :=
  t.status == "active" &&
    (match t.next_run with
     | some nr => decide (nr ≤ env.now)
     | none => false)

/-- The post-run bookkeeping for one fired task: `once` → paused with
`next_run = null`; `cron` → next cron occurrence (`null` if the expression no
longer parses); `interval` → `Date.now() + parseInt(value)` — when `parseInt`
is `NaN` the source throws in `toISOString` (handled at the pass level),
modelled here by mapping over the parse result. -/
def fireUpdate (env : TimeEnv) (t : ScheduledTask) : ScheduledTask :=
  if t.schedule_type = "once" then { t with next_run := none, status := "paused" }
  else if t.schedule_type = "cron" then
    { t with next_run := env.cronNext t.schedule_value }
  else if t.schedule_type = "interval" then
    { t with
      next_run := (env.parseIntDec t.schedule_value).map (fun ms => env.now + ms) }
  else t

/-- One scheduler pass over the persisted store.  A due `interval` task whose
value does not `parseInt` makes `new Date(NaN).toISOString()` throw before
`writeTasks` runs, so nothing is persisted: that pass is modelled as `none`
(store unchanged).  Otherwise every due task is fired and updated, and the
batch is written. -/
def schedulerPass (env : TimeEnv) (tasks : List ScheduledTask) :
    Option (List ScheduledTask) :=
  if tasks.any (fun t => isDue env t && t.schedule_type == "interval" &&
      (env.parseIntDec t.schedule_value).isNone) then
    none
  else
    some (tasks.map (fun t => if isDue env t then fireUpdate env t else t))

/-- A concrete scheduler environment: the clock reads 100 and all external
parsers fail. -/
def c8Env : TimeEnv := ⟨100, fun _ => none, fun _ => none, fun _ => none⟩

/-- A concrete due `once` task. -/
def c8Task : ScheduledTask :=
  ⟨"task-0", "chat1", none, "do it", "once", "2024-01-01T00:00:00Z",
   some 50, "active", 0⟩

/-- The task `c8Task` after its firing pass. -/
def c8TaskFired : ScheduledTask :=
  ⟨"task-0", "chat1", none, "do it", "once", "2024-01-01T00:00:00Z",
   none, "paused", 0⟩

/-- A concrete `once` mutation whose value does not parse as a date. -/
def c9DataOnce : TaskIpcData :=
  ⟨"schedule", none, none, some "remind me", some "once", some "not-a-date",
   none, none⟩

/-- A concrete `cron` mutation whose expression does not parse. -/
def c9DataCron : TaskIpcData :=
  ⟨"schedule", none, none, some "remind me", some "cron", some "bad cron",
   none, none⟩

/-- Structure `ContainerState` (src/types.ts), without the process handle. -/
structure ContainerStateM where
  containerName : String
  sessionId : Option String
  lastActivity : Int
deriving DecidableEq, Repr

/-- The operations src/index.ts performs on `containers`:
* `spawn` — `containers.set(chatId, {...})` in `startContainer`;
* `outputSession` — `state.sessionId = output.newSessionId` in `handleOutput`;
* `followUpTouch` — `state.lastActivity = Date.now()` in `handleMessage`;
* `remove` — `containers.delete(chatId)` in the idle-timeout callback, the
  `result.then`/`result.catch` continuations of `startContainer`, and the
  `/new` reset branch of `handleMessage`. -/
inductive RegistryOp where
  | spawn (chatId containerName : String) (sessionId : Option String) (t : Int)
  | outputSession (chatId sessionId : String)
  | followUpTouch (chatId : String) (t : Int)
  | remove (chatId : String)
deriving DecidableEq, Repr

/-- Update the value bound to `k` in place (the JS code mutates the object
returned by `Map.get` when present, a no-op otherwise). -/
def alUpdate {V : Type} (k : String) (f : V → V)
    (m : List (String × V)) : List (String × V) :=
  m.map (fun e => if e.1 = k then (e.1, f e.2) else e)

def applyRegistryOp (m : List (String × ContainerStateM)) :
    RegistryOp → List (String × ContainerStateM)
  | .spawn c name sid t => alSet c ⟨name, sid, t⟩ m
  | .outputSession c sid => alUpdate c (fun st => { st with sessionId := some sid }) m
  | .followUpTouch c t => alUpdate c (fun st => { st with lastActivity := t }) m
  | .remove c => m.filter (fun e => e.1 ≠ c)

/-- The registry reached from startup (`new Map()` is empty) by any sequence
of operations. -/
def runRegistry (ops : List RegistryOp) : List (String × ContainerStateM) :=
  ops.foldl applyRegistryOp []

/-- Model of `remaining.lastIndexOf("\n", maxLen)`: the largest index `i ≤ fromIdx`
holding a newline, `none` when there is none (JS returns `-1`). -/
def jsLastIndexOfNewline (s : List Char) (fromIdx : Nat) : Option Nat :=
  ((List.range (fromIdx + 1)).filter (fun i => s[i]? == some '\n')).getLast?

/-- The split position of one loop iteration: the newline position, replaced
by `maxLen` when it is `-1` or `0` (`if (splitAt <= 0) splitAt = maxLen`). -/
def jsSplitAt (maxLen : Nat) (remaining : List Char) : Nat :=
  match jsLastIndexOfNewline remaining maxLen with
  | some i => if i = 0 then maxLen else i
  | none => maxLen

/-- The `while (remaining.length > 0)` loop of `splitMessage`, with an
explicit recursion bound (each iteration consumes at least one character when
`0 < maxLen`, so `remaining.length` steps always suffice). -/
def splitGoF : Nat → Nat → List Char → List (List Char)
  | 0, _, _ => []
  | fuel + 1, maxLen, remaining =>
    if remaining.length = 0 then []
    else if remaining.length ≤ maxLen then [remaining]
    else
      remaining.take (jsSplitAt maxLen remaining) ::
        splitGoF fuel maxLen (remaining.drop (jsSplitAt maxLen remaining))

/-- Model of `splitMessage(text, maxLen)` (src/telegram.ts). -/
def splitMessage (text : List Char) (maxLen : Nat) : List (List Char) :=
  if text.length ≤ maxLen then [text]
  else splitGoF text.length maxLen text

/-! ### Bytes and UTF-8: the per-chunk `data.toString()` decode

The stdout handler receives raw `Buffer` chunks and decodes EACH chunk
independently with `data.toString()` (src/container-runner.ts line 298),
i.e. with the WHATWG UTF-8 decoder used by `Buffer.prototype.toString("utf8")`:
malformed or truncated sequences become U+FFFD replacement characters.  Bytes
are modelled as `Nat` (values < 256 in every real stream). -/

/-- The U+FFFD replacement character. -/
def repChar : Char := Char.ofNat 0xFFFD

/-- A decoded scalar value as a `Char` (every code point the decoder emits is
a valid scalar value by construction). -/
def uchar (n : Nat) : Char := Char.ofNat n

/-- The running state of the WHATWG UTF-8 decoder: how many continuation
bytes are still needed, the partial code point, and the valid range for the
next continuation byte. -/
structure Utf8State where
  needed : Nat
  cp : Nat
  lower : Nat
  upper : Nat
deriving DecidableEq, Repr

def utf8Init : Utf8State := ⟨0, 0, 0x80, 0xBF⟩

/-- Handling of one byte in the initial decoder state: ASCII is emitted,
lead bytes arm the state (with the overlong/surrogate/range boundaries of the
WHATWG algorithm), anything else (stray continuation bytes, 0xC0/0xC1,
0xF5-0xFF) emits U+FFFD. -/
def utf8Lead (b : Nat) : List Char × Utf8State :=
  if b ≤ 0x7F then ([uchar b], utf8Init)
  else if 0xC2 ≤ b ∧ b ≤ 0xDF then ([], ⟨1, b - 0xC0, 0x80, 0xBF⟩)
  else if 0xE0 ≤ b ∧ b ≤ 0xEF then
    ([], ⟨2, b - 0xE0, (if b = 0xE0 then 0xA0 else 0x80),
          (if b = 0xED then 0x9F else 0xBF)⟩)
  else if 0xF0 ≤ b ∧ b ≤ 0xF4 then
    ([], ⟨3, b - 0xF0, (if b = 0xF0 then 0x90 else 0x80),
          (if b = 0xF4 then 0x8F else 0xBF)⟩)
  else ([repChar], utf8Init)

/-- One step of the WHATWG UTF-8 decoder: a valid continuation byte extends
the partial code point (emitting it when complete); an invalid one emits
U+FFFD and reprocesses the byte as a new lead (the algorithm's "prepend"). -/
def utf8Step (st : Utf8State) (b : Nat) : List Char × Utf8State :=
  if st.needed = 0 then utf8Lead b
  else if st.lower ≤ b ∧ b ≤ st.upper then
    if st.needed = 1 then ([uchar (st.cp * 0x40 + (b - 0x80))], utf8Init)
    else ([], ⟨st.needed - 1, st.cp * 0x40 + (b - 0x80), 0x80, 0xBF⟩)
  else
    let r := utf8Lead b
    (repChar :: r.1, r.2)

/-- Run the decoder over a byte list; a truncated sequence at end-of-input
emits one final U+FFFD. -/
def utf8DecodeLoop (st : Utf8State) : List Nat → List Char
  | [] => if st.needed = 0 then [] else [repChar]
  | b :: bs =>
    let r := utf8Step st b
    r.1 ++ utf8DecodeLoop r.2 bs

/-- `buffer.toString()` for one delivered chunk: lossy WHATWG UTF-8 decoding
starting from the initial state (each `data` event decodes independently —
the source uses no streaming `StringDecoder`). -/
def utf8Decode (bytes : List Nat) : List Char :=
  utf8DecodeLoop utf8Init bytes

/-- UTF-8 encoding of one scalar value. -/
def utf8EncodeChar (c : Char) : List Nat :=
  let n := c.toNat
  if n ≤ 0x7F then [n]
  else if n ≤ 0x7FF then [0xC0 + n / 0x40, 0x80 + n % 0x40]
  else if n ≤ 0xFFFF then
    [0xE0 + n / 0x1000, 0x80 + (n / 0x40) % 0x40, 0x80 + n % 0x40]
  else
    [0xF0 + n / 0x40000, 0x80 + (n / 0x1000) % 0x40, 0x80 + (n / 0x40) % 0x40,
     0x80 + n % 0x40]

/-- UTF-8 encoding of a character sequence (the bytes a worker actually
writes to stdout for that text). -/
def utf8Encode (cs : List Char) : List Nat :=
  cs.flatMap utf8EncodeChar

/-- The full stdout handler of `spawnContainer` at the byte level: for each
`data` event, decode the chunk with `data.toString()` and feed the resulting
characters to the frame parser. -/
def runByteStream (jparse : List Char → Option ContainerOutput)
    (chunks : List (List Nat)) : StreamState :=
  chunks.foldl (fun st chunk => onData jparse st (utf8Decode chunk))
    initialStreamState

/-- The frame the C1 counterexample parser returns for the intact body. -/
def c1FrameA : ContainerOutput := ⟨"success", some "decoded-whole", none, none, none⟩

/-- The frame the C1 counterexample parser returns for any garbled body. -/
def c1FrameB : ContainerOutput := ⟨"success", some "decoded-split", none, none, none⟩

/-- A parse behaviour distinguishing the intact body from a garbled one. -/
def c1Jparse : List Char → Option ContainerOutput :=
  fun s => if s = "é".toList then some c1FrameA else some c1FrameB

/-- The byte stream of one well-formed frame whose body is the two-byte
character U+00E9 (bytes 0xC3 0xA9). -/
def c1Bytes : List Nat :=
  utf8Encode (OUTPUT_START_MARKER ++ "é".toList ++ OUTPUT_END_MARKER)

/-! ## Theorems: supporting lemmas and the claims -/

theorem strIndexOf_bound {pat s : List Char} {i : Nat}
    (h : strIndexOf pat s = some i) : i + pat.length ≤ s.length := by
  induction s generalizing i with
  | nil =>
    unfold strIndexOf at h
    by_cases hp : pat.isPrefixOf ([] : List Char)
    · have hpn : pat = [] := List.prefix_nil.mp (List.isPrefixOf_iff_prefix.mp hp)
      simp [hp] at h
      simp [← h, hpn]
    · simp [hp] at h
  | cons c rest ih =>
    unfold strIndexOf at h
    by_cases hp : pat.isPrefixOf (c :: rest)
    · simp [hp] at h
      obtain rfl : i = 0 := by omega
      have hl := (List.isPrefixOf_iff_prefix.mp hp).length_le
      simpa using hl
    · simp [hp] at h
      obtain ⟨j, hj, hji⟩ := h
      have hb := ih hj
      simp only [List.length_cons]
      omega

theorem strIndexOf_append {pat s t : List Char} {i : Nat}
    (h : strIndexOf pat s = some i) : strIndexOf pat (s ++ t) = some i := by
  induction s generalizing i with
  | nil =>
    unfold strIndexOf at h
    by_cases hp : pat.isPrefixOf ([] : List Char)
    · have hpn : pat = [] := List.prefix_nil.mp (List.isPrefixOf_iff_prefix.mp hp)
      simp [hp] at h
      obtain rfl : i = 0 := by omega
      subst hpn
      cases t with
      | nil => simp [strIndexOf]
      | cons c cs => simp [strIndexOf, List.isPrefixOf_iff_prefix, List.nil_prefix]
    · simp [hp] at h
  | cons c rest ih =>
    unfold strIndexOf at h
    by_cases hp : pat.isPrefixOf (c :: rest)
    · simp [hp] at h
      obtain rfl : i = 0 := by omega
      have hpre : pat <+: (c :: rest) := List.isPrefixOf_iff_prefix.mp hp
      have hpre2 : pat <+: c :: (rest ++ t) := by
        simpa using hpre.trans (List.prefix_append _ t)
      simp [strIndexOf, List.isPrefixOf_iff_prefix.mpr hpre2]
    · simp [hp] at h
      obtain ⟨j, hj, hji⟩ := h
      have hbound := strIndexOf_bound hj
      -- `pat` cannot be a prefix of `(c :: rest) ++ t` either: it already
      -- occurs wholly inside `rest`, so it is shorter than `c :: rest`.
      have hnp : ¬ pat.isPrefixOf ((c :: rest) ++ t) := by
        intro hcontra
        have hpre : pat <+: (c :: rest) ++ t := List.isPrefixOf_iff_prefix.mp hcontra
        have hlen : pat.length ≤ (c :: rest).length := by
          simp
          omega
        have : pat = ((c :: rest) ++ t).take pat.length :=
          List.prefix_iff_eq_take.mp hpre
        rw [List.take_append_of_le_length hlen] at this
        exact hp (List.isPrefixOf_iff_prefix.mpr
          (this ▸ List.take_prefix pat.length (c :: rest)))
      simp only [List.cons_append]
      unfold strIndexOf
      simp only [List.cons_append] at hnp
      simp [hnp, ih hj, ← hji]

theorem drainStep_shrink {b : List Char} {f b1 : List Char}
    (h : drainStep b = some (f, b1)) : b1.length < b.length := by
  unfold drainStep at h
  cases hs : strIndexOf OUTPUT_START_MARKER b with
  | none => simp [hs] at h
  | some startIdx =>
    cases he : strIndexOf OUTPUT_END_MARKER (b.drop startIdx) with
    | none => simp [hs, he] at h
    | some e0 =>
      simp [hs, he] at h
      have hsb := strIndexOf_bound hs
      have : OUTPUT_START_MARKER.length = 27 := by decide
      rw [this] at hsb
      have hb1 : b1 = b.drop (startIdx + e0 + OUTPUT_END_MARKER.length) := h.2.symm
      have : OUTPUT_END_MARKER.length = 25 := by decide
      rw [this] at hb1
      subst hb1
      simp
      omega

/-- Extracting one frame commutes with appending more data to the buffer:
the leftmost start/end markers found in `b` are also the leftmost ones in
`b ++ c`, and all slices taken lie inside `b`. -/
theorem drainStep_append {b c : List Char} {f b1 : List Char}
    (h : drainStep b = some (f, b1)) :
    drainStep (b ++ c) = some (f, b1 ++ c) := by
  unfold drainStep at h ⊢
  cases hs : strIndexOf OUTPUT_START_MARKER b with
  | none => simp [hs] at h
  | some startIdx =>
    cases he : strIndexOf OUTPUT_END_MARKER (b.drop startIdx) with
    | none => simp [hs, he] at h
    | some e0 =>
      simp only [hs, he, Option.some.injEq, Prod.mk.injEq] at h
      have hsb := strIndexOf_bound hs
      have heb := strIndexOf_bound he
      have hS : OUTPUT_START_MARKER.length = 27 := by decide
      have hE : OUTPUT_END_MARKER.length = 25 := by decide
      rw [hS] at hsb
      rw [hE] at heb
      simp only [List.length_drop] at heb
      have hsle : startIdx ≤ b.length := by omega
      have hs2 : strIndexOf OUTPUT_START_MARKER (b ++ c) = some startIdx :=
        strIndexOf_append hs
      have hdropapp : (b ++ c).drop startIdx = b.drop startIdx ++ c :=
        List.drop_append_of_le_length hsle
      have he2 : strIndexOf OUTPUT_END_MARKER ((b ++ c).drop startIdx) = some e0 := by
        rw [hdropapp]; exact strIndexOf_append he
      simp only [hs2, he2]
      have hsSle : startIdx + OUTPUT_START_MARKER.length ≤ b.length := by
        rw [hS]; omega
      have hdropapp2 : (b ++ c).drop (startIdx + OUTPUT_START_MARKER.length) =
          b.drop (startIdx + OUTPUT_START_MARKER.length) ++ c :=
        List.drop_append_of_le_length hsSle
      have htake : (b.drop (startIdx + OUTPUT_START_MARKER.length) ++ c).take
            (startIdx + e0 - (startIdx + OUTPUT_START_MARKER.length)) =
          (b.drop (startIdx + OUTPUT_START_MARKER.length)).take
            (startIdx + e0 - (startIdx + OUTPUT_START_MARKER.length)) := by
        apply List.take_append_of_le_length
        simp only [List.length_drop]
        rw [hS]
        omega
      have hdropEle : startIdx + e0 + OUTPUT_END_MARKER.length ≤ b.length := by
        rw [hE]; omega
      have hdropapp3 : (b ++ c).drop (startIdx + e0 + OUTPUT_END_MARKER.length) =
          b.drop (startIdx + e0 + OUTPUT_END_MARKER.length) ++ c :=
        List.drop_append_of_le_length hdropEle
      rw [hdropapp2, htake, hdropapp3]
      rw [← h.1, ← h.2]

theorem drainGo_congr :
    ∀ (fuel1 fuel2 : Nat) (b : List Char), b.length ≤ fuel1 → b.length ≤ fuel2 →
      drainGo fuel1 b = drainGo fuel2 b := by
  intro fuel1
  induction fuel1 with
  | zero =>
    intro fuel2 b h1 h2
    have hb : b = [] := List.length_eq_zero.mp (by omega)
    subst hb
    cases fuel2 with
    | zero => rfl
    | succ m => simp [drainGo, show drainStep [] = none from rfl]
  | succ n ih =>
    intro fuel2 b h1 h2
    cases fuel2 with
    | zero =>
      have hb : b = [] := List.length_eq_zero.mp (by omega)
      subst hb
      simp [drainGo, show drainStep [] = none from rfl]
    | succ m =>
      simp only [drainGo]
      cases h : drainStep b with
      | none => rfl
      | some fb =>
        obtain ⟨f, b1⟩ := fb
        have hlt := drainStep_shrink h
        simp only []
        rw [ih m b1 (by omega) (by omega)]

theorem drain_of_none {b : List Char} (h : drainStep b = none) :
    drain b = ([], b) := by
  unfold drain
  cases hb : b.length with
  | zero => rfl
  | succ n => simp [drainGo, h]

theorem drain_of_some {b : List Char} {f b1 : List Char}
    (h : drainStep b = some (f, b1)) :
    drain b = (f :: (drain b1).1, (drain b1).2) := by
  have hlt := drainStep_shrink h
  unfold drain
  cases hb : b.length with
  | zero => omega
  | succ n =>
    simp only [drainGo, h]
    rw [drainGo_congr n b1.length b1 (by omega) (by omega)]

/-- The residual buffer left by the loop holds no complete frame. -/
theorem drain_residual_quiescent (b : List Char) :
    drainStep (drain b).2 = none := by
  cases h : drainStep b with
  | none => rw [drain_of_none h]; exact h
  | some fb =>
    obtain ⟨f, b1⟩ := fb
    rw [drain_of_some h]
    exact drain_residual_quiescent b1
termination_by b.length
decreasing_by exact drainStep_shrink h

/-- Compositionality of the extraction loop: draining `b ++ c` yields the
frames of `b` followed by the frames of the residual of `b` extended by `c`. -/
theorem drain_append (b c : List Char) :
    drain (b ++ c) =
      ((drain b).1 ++ (drain ((drain b).2 ++ c)).1,
       (drain ((drain b).2 ++ c)).2) := by
  cases h : drainStep b with
  | none =>
    rw [drain_of_none h]
    simp
  | some fb =>
    obtain ⟨f, b1⟩ := fb
    have hstep := drainStep_append (c := c) h
    rw [drain_of_some h, drain_of_some hstep]
    have ih := drain_append b1 c
    rw [ih]
    simp
termination_by b.length
decreasing_by exact drainStep_shrink h

theorem foldl_frameFold_delivered (jparse : List Char → Option ContainerOutput)
    (cands : List (List Char)) (st : StreamState) :
    (cands.foldl (frameFold jparse) st).delivered =
      st.delivered ++ cands.filterMap jparse ∧
    (cands.foldl (frameFold jparse) st).parseBuffer = st.parseBuffer := by
  induction cands generalizing st with
  | nil => simp
  | cons cand rest ih =>
    simp only [List.foldl_cons, List.filterMap_cons]
    cases h : jparse cand with
    | none =>
      have := ih st
      simp [frameFold, h, this.1, this.2]
    | some parsed =>
      have hrec := ih (applyFrame st parsed)
      simp only [frameFold, h]
      rw [hrec.1, hrec.2]
      simp [applyFrame]

theorem onData_delivered (jparse : List Char → Option ContainerOutput)
    (st : StreamState) (chunk : List Char) :
    (onData jparse st chunk).delivered =
      st.delivered ++ (drain (st.parseBuffer ++ chunk)).1.filterMap jparse ∧
    (onData jparse st chunk).parseBuffer = (drain (st.parseBuffer ++ chunk)).2 := by
  unfold onData
  constructor
  · exact (foldl_frameFold_delivered jparse _ st).1
  · rfl

/-- Running the remaining chunks from a quiescent buffer delivers exactly the
parses of the frames extracted from the buffer extended by all remaining data. -/
theorem runStream_delivered_from (jparse : List Char → Option ContainerOutput)
    (chunks : List (List Char)) (st : StreamState)
    (hq : drainStep st.parseBuffer = none) :
    (chunks.foldl (onData jparse) st).delivered =
      st.delivered ++ (drain (st.parseBuffer ++ chunks.flatten)).1.filterMap jparse := by
  induction chunks generalizing st with
  | nil =>
    simp [drain_of_none hq]
  | cons chunk rest ih =>
    simp only [List.foldl_cons, List.flatten_cons]
    have hstep := onData_delivered jparse st chunk
    have hq2 : drainStep (onData jparse st chunk).parseBuffer = none := by
      rw [hstep.2]
      exact drain_residual_quiescent _
    have := ih (onData jparse st chunk) hq2
    rw [this, hstep.1, hstep.2]
    have hda := drain_append (st.parseBuffer ++ chunk) rest.flatten
    rw [List.append_assoc] at hda
    rw [hda]
    simp

/-- Character-level chunk invariance of the frame parser: once chunks are
decoded, splitting the character stream at any boundary delivers the same
frames as the unsplit stream.  (Helper for the amended C1: at the byte level
this transfers only to chunkings whose boundaries do not split a multi-byte
character.) -/
theorem runStream_chunk_invariant (jparse : List Char → Option ContainerOutput)
    (chunks : List (List Char)) :
    (runStream jparse chunks).delivered =
      (runStream jparse [chunks.flatten]).delivered := by
  have h0 : drainStep initialStreamState.parseBuffer = none := rfl
  have h1 := runStream_delivered_from jparse chunks initialStreamState h0
  have h2 := runStream_delivered_from jparse [chunks.flatten] initialStreamState h0
  unfold runStream
  rw [h1, h2]
  simp [initialStreamState]

theorem frameFold_inv (jparse : List Char → Option ContainerOutput)
    (cands : List (List Char)) (st : StreamState)
    (h1 : st.hadStreamingOutput = !st.delivered.isEmpty)
    (h2 : st.newSessionId = st.delivered.foldl lastSessionStep none) :
    (cands.foldl (frameFold jparse) st).hadStreamingOutput
        = !(cands.foldl (frameFold jparse) st).delivered.isEmpty ∧
    (cands.foldl (frameFold jparse) st).newSessionId
        = (cands.foldl (frameFold jparse) st).delivered.foldl lastSessionStep none := by
  induction cands generalizing st with
  | nil => exact ⟨h1, h2⟩
  | cons cand rest ih =>
    simp only [List.foldl_cons]
    cases h : jparse cand with
    | none =>
      simp only [frameFold, h]
      exact ih st h1 h2
    | some parsed =>
      simp only [frameFold, h]
      apply ih
      · simp [applyFrame]
      · simp [applyFrame, List.foldl_append, h2, lastSessionStep]

theorem onData_inv (jparse : List Char → Option ContainerOutput)
    (st : StreamState) (chunk : List Char)
    (h1 : st.hadStreamingOutput = !st.delivered.isEmpty)
    (h2 : st.newSessionId = st.delivered.foldl lastSessionStep none) :
    (onData jparse st chunk).hadStreamingOutput
        = !(onData jparse st chunk).delivered.isEmpty ∧
    (onData jparse st chunk).newSessionId
        = (onData jparse st chunk).delivered.foldl lastSessionStep none := by
  unfold onData
  exact frameFold_inv jparse _ st h1 h2

theorem runStream_inv (jparse : List Char → Option ContainerOutput)
    (chunks : List (List Char)) :
    (runStream jparse chunks).hadStreamingOutput
        = !(runStream jparse chunks).delivered.isEmpty ∧
    (runStream jparse chunks).newSessionId
        = (runStream jparse chunks).delivered.foldl lastSessionStep none := by
  unfold runStream
  generalize hst : initialStreamState = st0
  have h1 : st0.hadStreamingOutput = !st0.delivered.isEmpty := by
    rw [← hst]; rfl
  have h2 : st0.newSessionId = st0.delivered.foldl lastSessionStep none := by
    rw [← hst]; rfl
  clear hst
  induction chunks generalizing st0 with
  | nil => exact ⟨h1, h2⟩
  | cons chunk rest ih =>
    simp only [List.foldl_cons]
    obtain ⟨g1, g2⟩ := onData_inv jparse st0 chunk h1 h2
    exact ih _ g1 g2

/-- C2.  Timeout resolution dichotomy: for a streaming run (an `onOutput`
callback registered) whose watchdog fired (`timedOut = true`), the `close`
handler resolves the result promise with a timeout error when no frame was
parsed before the timeout, and with `status = "success"`, `result = null` and
the last session id reported in any frame when at least one frame was parsed. -/
theorem C2_timeout_resolution (jparse : List Char → Option ContainerOutput)
    (chunks : List (List Char)) (code : Option Int) :
    resolveOnClose true (runStream jparse chunks).hadStreamingOutput
        (runStream jparse chunks).newSessionId code true chunks.flatten jparse =
      (if (runStream jparse chunks).delivered.isEmpty then
        ⟨"error", none, none, some "Container timed out", none⟩
      else
        ⟨"success", none,
         (runStream jparse chunks).delivered.foldl lastSessionStep none,
         none, none⟩ : ContainerOutput) := by
  obtain ⟨h1, h2⟩ := runStream_inv jparse chunks
  by_cases hd : (runStream jparse chunks).delivered.isEmpty = true
  · rw [if_pos hd]
    unfold resolveOnClose
    rw [h1, hd]
    simp
  · rw [if_neg hd]
    unfold resolveOnClose
    rw [h1, h2]
    simp only [Bool.not_eq_true] at hd
    rw [hd]
    simp

/-- C3 counterexample: a run that exits with code 1, was not timed out, had no
frames delivered and no streaming callback, and whose captured stdout contains
one well-formed marker-delimited frame that would parse successfully, is
resolved as `status = "error"` with the exit-code message — NOT with the parsed
frame.  The `close` handler checks `code !== 0` before ever reaching the
stdout-scanning fallback. -/
theorem C3_counterexample :
    resolveOnClose false false none (some 1) false c3Stdout c3Jparse =
      ⟨"error", none, none, some "Container exited with code 1", none⟩ ∧
    (⟨"error", none, none, some "Container exited with code 1", none⟩ :
        ContainerOutput) ≠ c3Frame ∧
    strIndexOf OUTPUT_START_MARKER c3Stdout = some 0 ∧
    strIndexOf OUTPUT_END_MARKER c3Stdout = some 28 ∧
    c3Jparse (jsTrim ((c3Stdout.drop (0 + OUTPUT_START_MARKER.length)).take
        (28 - (0 + OUTPUT_START_MARKER.length)))) = some c3Frame := by
  refine ⟨by decide, by decide, by decide, by decide, by decide⟩

/-- C3 amended: a container run that exits with a non-zero (or signal-null)
code and was not timed out always resolves with `status = "error"` and the
message `Container exited with code {code}`, regardless of frames delivered,
streaming callback, or captured stdout; the full-stdout scan for one
marker-delimited frame runs only on a zero exit with no streaming callback. -/
theorem C3_amended (hadStreamingOutput : Bool) (newSessionId : Option String)
    (code : Option Int) (hasOnOutput : Bool) (stdout : List Char)
    (jparse : List Char → Option ContainerOutput)
    (hcode : code ≠ some 0) :
    resolveOnClose false hadStreamingOutput newSessionId code hasOnOutput
        stdout jparse =
      ⟨"error", none, none,
       some ("Container exited with code " ++ jsCodeString code), none⟩ := by
  unfold resolveOnClose
  simp [hcode]

theorem C3_amended_witness :
    resolveOnClose false false none (some 1) false [] (fun _ => none) =
      ⟨"error", none, none,
       some ("Container exited with code " ++ jsCodeString (some 1)), none⟩ :=
  C3_amended false none (some 1) false [] (fun _ => none) (by decide)

/-- C4 counterexample: a worker that consumed the close sentinel during its
query but whose query then threw exits with code
`workerExitCode true true = 1` (the agent-runner's `catch` calls
`process.exit(1)` even after `shouldClose` consumed `_close`); the `close`
handler of `spawnContainer` (not timed out, exit code 1) resolves that run as
an error — contradicting the claim that consuming the close sentinel makes a
non-zero exit be reported as a normal success. -/
theorem C4_counterexample :
    resolveOnClose false true (some "abc123ef") (some (workerExitCode true true))
        true [] (fun _ => none) =
      ⟨"error", none, none, some "Container exited with code 1", none⟩ ∧
    ("error" : String) ≠ "success" :=
  ⟨by decide, by decide⟩

/-- C4 amended: the `close` handler inspects only the timeout flag, the exit
code, and the streaming state — never the close sentinel.  A worker that exits
after consuming the close sentinel is reported as a normal success exactly
because its exit code is then 0; if the worker exits non-zero (its query threw
after the sentinel was consumed), the run is reported as an error, whether or
not the sentinel was consumed. -/
theorem C4_amended (hadStreamingOutput : Bool) (newSessionId : Option String)
    (stdout : List Char) (jparse : List Char → Option ContainerOutput)
    (sentinelConsumed : Bool) :
    resolveOnClose false hadStreamingOutput newSessionId
        (some (workerExitCode sentinelConsumed false)) true stdout jparse =
      ⟨"success", none, newSessionId, none, none⟩ ∧
    (resolveOnClose false hadStreamingOutput newSessionId
        (some (workerExitCode sentinelConsumed true)) true stdout jparse).status
      = "error" := by
  constructor
  · unfold resolveOnClose workerExitCode
    simp
  · unfold resolveOnClose workerExitCode
    simp

/-- C5 counterexample: a container run that delivers zero frames and resolves
with an error outcome (here: timeout with no frames) sends NO message to the
chat at all — the error is only logged — contradicting the claim that an error
outcome produces an error message sent to the chat. -/
theorem C5_counterexample :
    containerRunMessages 0 [] "chat1" []
        ⟨"error", none, none, some "Container timed out", none⟩ = [] := by
  decide

/-- C5 amended: the chat receives exactly the truthy `result` texts of the
delivered frames, in order; frames with `result = null` (session bookkeeping)
and the final outcome — including every error outcome (spawn failure, timeout
with no frames, non-zero exit) — contribute no chat message.  Errors are only
logged, so a failed run with no frames is silent toward the chat. -/
theorem C5_amended (now : Int) (sessions : List (String × SessionDataM))
    (chatId : String) (frames : List ContainerOutput)
    (finalOutput : ContainerOutput) :
    containerRunMessages now sessions chatId frames finalOutput =
      frames.filterMap (fun o =>
        match o.result with
        | some r => if r = "" then none else some r
        | none => none) := by
  unfold containerRunMessages
  suffices h : ∀ (ss : List (String × SessionDataM)),
      (handleOutputsLoop now chatId ss frames).2 =
        frames.filterMap (fun o =>
          match o.result with
          | some r => if r = "" then none else some r
          | none => none) by
    simp only []
    rw [h sessions]
    simp [finalizeStep]
  intro ss
  induction frames generalizing ss with
  | nil => rfl
  | cons o rest ih =>
    simp only [handleOutputsLoop, List.filterMap_cons]
    cases hr : o.result with
    | none => simp [handleOutputStep, hr, ih]
    | some r =>
      by_cases hre : r = ""
      · simp [handleOutputStep, hr, hre, ih]
      · simp [handleOutputStep, hr, hre, ih]

theorem truthy_eq_some {o : Option String} (h : truthy o = true) :
    o = some (o.getD "") := by
  cases o with
  | none => simp [truthy] at h
  | some s => rfl

theorem updateFirst_filter {α : Type} (p : α → Bool) (f : α → α)
    (hpf : ∀ t, p t = true → p (f t) = true) :
    ∀ ts : List α, (ts.filter p).length ≤ 1 →
      (updateFirst p f ts).filter p = (ts.filter p).map f := by
  intro ts
  induction ts with
  | nil => intro _; rfl
  | cons t rest ih =>
    intro hlen
    by_cases hpt : p t = true
    · have hfe : rest.filter p = [] := by
        rw [List.filter_cons_of_pos hpt] at hlen
        simp only [List.length_cons] at hlen
        exact List.length_eq_zero.mp (by omega)
      simp [updateFirst, hpt, List.filter_cons, hpf t hpt, hfe]
    · have hpt2 : p t = false := by
        cases h : p t
        · rfl
        · exact absurd h hpt
      rw [List.filter_cons_of_neg (by simp [hpt2])] at hlen ⊢
      simp only [updateFirst, hpt2, Bool.false_eq_true, if_false]
      rw [List.filter_cons_of_neg (by simp [hpt2])]
      exact ih hlen

theorem filter_singleton_of_any {α : Type} (p : α → Bool) (l : List α)
    (hlen : (l.filter p).length ≤ 1) (hany : l.any p = true) :
    ∃ t, l.filter p = [t] ∧ t ∈ l ∧ p t = true := by
  obtain ⟨x, hx, hpx⟩ := List.any_eq_true.mp hany
  have hmem : x ∈ l.filter p := List.mem_filter.mpr ⟨hx, hpx⟩
  have h1 : 0 < (l.filter p).length :=
    List.length_pos.mpr (List.ne_nil_of_mem hmem)
  have h2 : (l.filter p).length = 1 := by omega
  obtain ⟨t, ht⟩ := List.length_eq_one.mp h2
  refine ⟨t, ht, ?_, ?_⟩
  · have : t ∈ l.filter p := by rw [ht]; exact List.mem_singleton_self t
    exact (List.mem_filter.mp this).1
  · have : t ∈ l.filter p := by rw [ht]; exact List.mem_singleton_self t
    exact (List.mem_filter.mp this).2

theorem labelMatches_scheduleUpd (cid lbl p ty v : String) (nr : Option Int)
    (t : ScheduledTask) :
    labelMatches cid lbl (scheduleUpd p ty v nr t) = labelMatches cid lbl t := by
  simp [labelMatches, scheduleUpd]

/-- One `schedule` mutation carrying a (truthy) label, applied to a store with
at most one task matching `(chatId, label)`, writes a store whose matching
tasks are exactly one task carrying the mutation's prompt, schedule and
`next_run`, with `status = "active"`. -/
theorem processSchedule_label (env : TimeEnv) (fid : String) (data : TaskIpcData)
    (src : String) (tasks : List ScheduledTask)
    (hty : data.type = "schedule")
    (hp : truthy data.prompt = true)
    (hst : truthy data.schedule_type = true)
    (hsv : truthy data.schedule_value = true)
    (hl : truthy data.label = true)
    (hv : ¬(computeNextRun env (data.schedule_type.getD "")
            (data.schedule_value.getD "") = none ∧
          data.schedule_type.getD "" ≠ "once"))
    (hcount : (tasks.filter (labelMatches (ipcChatId data src)
        (data.label.getD ""))).length ≤ 1) :
    ∃ ts1, processTaskIpc env fid data src tasks = some ts1 ∧
      ∃ tid cat,
        ts1.filter (labelMatches (ipcChatId data src) (data.label.getD "")) =
          [⟨tid, ipcChatId data src, some (data.label.getD ""),
            data.prompt.getD "", data.schedule_type.getD "",
            data.schedule_value.getD "",
            computeNextRun env (data.schedule_type.getD "")
              (data.schedule_value.getD ""),
            "active", cat⟩] := by
  by_cases hany : tasks.any (labelMatches (ipcChatId data src)
      (data.label.getD "")) = true
  · have hres : processTaskIpc env fid data src tasks =
        some (updateFirst (labelMatches (ipcChatId data src) (data.label.getD ""))
          (scheduleUpd (data.prompt.getD "") (data.schedule_type.getD "")
            (data.schedule_value.getD "")
            (computeNextRun env (data.schedule_type.getD "")
              (data.schedule_value.getD "")))
          tasks) := by
      unfold processTaskIpc
      simp [hty, hp, hst, hsv, hl, hany, hv]
    refine ⟨_, hres, ?_⟩
    obtain ⟨t0, hf0, _hmem0, hp0⟩ :=
      filter_singleton_of_any _ tasks hcount hany
    have hupd := updateFirst_filter
      (labelMatches (ipcChatId data src) (data.label.getD ""))
      (scheduleUpd (data.prompt.getD "") (data.schedule_type.getD "")
        (data.schedule_value.getD "")
        (computeNextRun env (data.schedule_type.getD "")
          (data.schedule_value.getD "")))
      (fun t ht => by rw [labelMatches_scheduleUpd]; exact ht)
      tasks hcount
    rw [hupd, hf0]
    have hp0s : t0.chatId = ipcChatId data src ∧
        t0.label = some (data.label.getD "") := by
      simpa [labelMatches] using hp0
    refine ⟨t0.id, t0.created_at, ?_⟩
    simp [scheduleUpd, hp0s.1, hp0s.2]
  · have hres : processTaskIpc env fid data src tasks =
        some (tasks ++
          [⟨fid, ipcChatId data src,
            (if truthy data.label then data.label else none),
            data.prompt.getD "", data.schedule_type.getD "",
            data.schedule_value.getD "",
            computeNextRun env (data.schedule_type.getD "")
              (data.schedule_value.getD ""),
            "active", env.now⟩]) := by
      unfold processTaskIpc
      simp [hty, hp, hst, hsv, hany, hv]
    refine ⟨_, hres, fid, env.now, ?_⟩
    have hanyf : tasks.any (labelMatches (ipcChatId data src)
        (data.label.getD "")) = false := by
      cases h : tasks.any (labelMatches (ipcChatId data src) (data.label.getD ""))
      · rfl
      · exact absurd h hany
    have hfnil : tasks.filter (labelMatches (ipcChatId data src)
        (data.label.getD "")) = [] := by
      rw [List.filter_eq_nil_iff]
      intro a ha hpa
      have htrue := List.any_eq_true.mpr ⟨a, ha, hpa⟩
      rw [htrue] at hanyf
      simp at hanyf
    rw [List.filter_append, hfnil]
    have hlbls := truthy_eq_some hl
    have hmatch : labelMatches (ipcChatId data src) (data.label.getD "")
        (⟨fid, ipcChatId data src,
          (if truthy data.label then data.label else none),
          data.prompt.getD "", data.schedule_type.getD "",
          data.schedule_value.getD "",
          computeNextRun env (data.schedule_type.getD "")
            (data.schedule_value.getD ""),
          "active", env.now⟩ : ScheduledTask) = true := by
      simp [labelMatches, hl, ← hlbls]
    rw [List.nil_append, List.filter_cons_of_pos hmatch, List.filter_nil]
    simp [hl, ← hlbls]

/-- C6.  Upsert-by-label idempotence: applying the same `schedule` mutation
(carrying a label) twice to a task store holding at most one task with that
`(chatId, label)` — as every store reachable through the upsert protocol does —
leaves exactly one task with that `(chatId, label)`; its prompt,
schedule_type, schedule_value and next_run are those computed from the second
call's fields, and its status is "active". -/
theorem C6_upsert_by_label_idempotent (env1 env2 : TimeEnv) (fid1 fid2 : String)
    (data : TaskIpcData) (src : String) (tasks : List ScheduledTask)
    (hty : data.type = "schedule")
    (hp : truthy data.prompt = true)
    (hst : truthy data.schedule_type = true)
    (hsv : truthy data.schedule_value = true)
    (hl : truthy data.label = true)
    (hv1 : ¬(computeNextRun env1 (data.schedule_type.getD "")
            (data.schedule_value.getD "") = none ∧
          data.schedule_type.getD "" ≠ "once"))
    (hv2 : ¬(computeNextRun env2 (data.schedule_type.getD "")
            (data.schedule_value.getD "") = none ∧
          data.schedule_type.getD "" ≠ "once"))
    (hcount : (tasks.filter (labelMatches (ipcChatId data src)
        (data.label.getD ""))).length ≤ 1) :
    ∃ ts1 ts2,
      processTaskIpc env1 fid1 data src tasks = some ts1 ∧
      processTaskIpc env2 fid2 data src ts1 = some ts2 ∧
      ∃ tid cat,
        ts2.filter (labelMatches (ipcChatId data src) (data.label.getD "")) =
          [⟨tid, ipcChatId data src, some (data.label.getD ""),
            data.prompt.getD "", data.schedule_type.getD "",
            data.schedule_value.getD "",
            computeNextRun env2 (data.schedule_type.getD "")
              (data.schedule_value.getD ""),
            "active", cat⟩] := by
  obtain ⟨ts1, h1, tid1, cat1, hf1⟩ :=
    processSchedule_label env1 fid1 data src tasks hty hp hst hsv hl hv1 hcount
  have hcount1 : (ts1.filter (labelMatches (ipcChatId data src)
      (data.label.getD ""))).length ≤ 1 := by
    rw [hf1]
    simp
  obtain ⟨ts2, h2, tid2, cat2, hf2⟩ :=
    processSchedule_label env2 fid2 data src ts1 hty hp hst hsv hl hv2 hcount1
  exact ⟨ts1, ts2, h1, h2, tid2, cat2, hf2⟩

theorem C6_witness :
    ∃ ts1 ts2,
      processTaskIpc c6Env "task-1" c6Data "chat9" [] = some ts1 ∧
      processTaskIpc c6Env "task-2" c6Data "chat9" ts1 = some ts2 ∧
      ∃ tid cat,
        ts2.filter (labelMatches (ipcChatId c6Data "chat9")
            (c6Data.label.getD "")) =
          [⟨tid, ipcChatId c6Data "chat9", some (c6Data.label.getD ""),
            c6Data.prompt.getD "", c6Data.schedule_type.getD "",
            c6Data.schedule_value.getD "",
            computeNextRun c6Env (c6Data.schedule_type.getD "")
              (c6Data.schedule_value.getD ""),
            "active", cat⟩] :=
  C6_upsert_by_label_idempotent c6Env c6Env "task-1" "task-2" c6Data "chat9" []
    rfl (by decide) (by decide) (by decide) (by decide)
    (by decide) (by decide) (by decide)

/-- C8.  Once-task finality: when a pass fires a `once` task, the written
store holds it with `status = "paused"` and `next_run = null`; a task in that
state is never due again, and every later completed pass leaves it untouched
(an external mutation would be needed to reactivate it). -/
theorem C8_once_task_finality (env : TimeEnv)
    (tasks tasks2 : List ScheduledTask) (i : Nat) (t : ScheduledTask)
    (hget : tasks[i]? = some t)
    (honce : t.schedule_type = "once")
    (hdue : isDue env t = true)
    (hpass : schedulerPass env tasks = some tasks2) :
    tasks2[i]? = some { t with next_run := none, status := "paused" } ∧
    (∀ env2, isDue env2 { t with next_run := none, status := "paused" } = false) ∧
    (∀ (env2 : TimeEnv) (ts ts2 : List ScheduledTask) (j : Nat),
        ts[j]? = some { t with next_run := none, status := "paused" } →
        schedulerPass env2 ts = some ts2 →
        ts2[j]? = some { t with next_run := none, status := "paused" }) := by
  have hmap : ∀ (e : TimeEnv) (l l2 : List ScheduledTask),
      schedulerPass e l = some l2 →
      l2 = l.map (fun u => if isDue e u then fireUpdate e u else u) := by
    intro e l l2 hp2
    unfold schedulerPass at hp2
    by_cases hg : l.any (fun u => isDue e u && u.schedule_type == "interval" &&
        (e.parseIntDec u.schedule_value).isNone) = true
    · rw [if_pos hg] at hp2
      cases hp2
    · rw [if_neg hg] at hp2
      exact (Option.some.injEq _ _ ▸ hp2).symm
  refine ⟨?_, ?_, ?_⟩
  · rw [hmap env tasks tasks2 hpass]
    rw [List.getElem?_map, hget]
    simp [hdue, fireUpdate, honce]
  · intro env2
    simp [isDue]
  · intro env2 ts ts2 j hj hp2
    rw [hmap env2 ts ts2 hp2]
    rw [List.getElem?_map, hj]
    simp [isDue]

theorem C8_witness :
    ([c8TaskFired] : List ScheduledTask)[0]? =
      some { c8Task with next_run := none, status := "paused" } :=
  (C8_once_task_finality c8Env [c8Task] [c8TaskFired] 0 c8Task
    (by decide) (by decide) (by decide) (by decide)).1

theorem updateFirst_mem {α : Type} (p : α → Bool) (f : α → α) :
    ∀ ts : List α, ts.any p = true →
      ∃ t0, t0 ∈ ts ∧ p t0 = true ∧ f t0 ∈ updateFirst p f ts := by
  intro ts
  induction ts with
  | nil => intro h; simp at h
  | cons t rest ih =>
    intro h
    by_cases hpt : p t = true
    · refine ⟨t, List.mem_cons_self t rest, hpt, ?_⟩
      simp [updateFirst, hpt]
    · have hpt2 : p t = false := by
        cases hh : p t
        · rfl
        · exact absurd hh hpt
      have hrest : rest.any p = true := by
        rw [List.any_cons, hpt2] at h
        simpa using h
      obtain ⟨t0, hm, hp0, hf⟩ := ih hrest
      refine ⟨t0, List.mem_cons_of_mem _ hm, hp0, ?_⟩
      simp only [updateFirst, hpt2, Bool.false_eq_true, if_false]
      exact List.mem_cons_of_mem _ hf

/-- C9.  Implicit claim: an invalid `once` schedule is not rejected.  A
`schedule` mutation with `schedule_type = "once"` whose value does not parse
as a date still creates (or label-upserts) the task, with `next_run = null`
and `status = "active"` — so the task exists in the store but is never due —
while an invalid value for a recurring kind (`cron`, `interval`) makes the
mutation be dropped without a store write. -/
theorem C9_invalid_once_schedule_not_rejected (env : TimeEnv) (fid : String)
    (data : TaskIpcData) (src : String) (tasks : List ScheduledTask)
    (hty : data.type = "schedule")
    (hp : truthy data.prompt = true)
    (hst : truthy data.schedule_type = true)
    (hsv : truthy data.schedule_value = true) :
    ((data.schedule_type = some "once" ∧
        env.parseDate (data.schedule_value.getD "") = none) →
      ∃ ts1 t, processTaskIpc env fid data src tasks = some ts1 ∧
        t ∈ ts1 ∧ t.chatId = ipcChatId data src ∧
        t.prompt = data.prompt.getD "" ∧ t.schedule_type = "once" ∧
        t.schedule_value = data.schedule_value.getD "" ∧
        t.next_run = none ∧ t.status = "active" ∧
        ∀ env2, isDue env2 t = false) ∧
    (((data.schedule_type = some "cron" ∨ data.schedule_type = some "interval") ∧
        computeNextRun env (data.schedule_type.getD "")
          (data.schedule_value.getD "") = none) →
      processTaskIpc env fid data src tasks = none) := by
  constructor
  · rintro ⟨honce, hnone⟩
    have hgetD : data.schedule_type.getD "" = "once" := by rw [honce]; rfl
    have hnr : computeNextRun env (data.schedule_type.getD "")
        (data.schedule_value.getD "") = none := by
      rw [hgetD]
      simp [computeNextRun, hnone]
    have hv : ¬(computeNextRun env (data.schedule_type.getD "")
        (data.schedule_value.getD "") = none ∧
        data.schedule_type.getD "" ≠ "once") := by
      rw [hgetD]
      simp
    by_cases hlany : truthy data.label = true ∧
        tasks.any (labelMatches (ipcChatId data src) (data.label.getD "")) = true
    · have hres : processTaskIpc env fid data src tasks =
          some (updateFirst
            (labelMatches (ipcChatId data src) (data.label.getD ""))
            (scheduleUpd (data.prompt.getD "") (data.schedule_type.getD "")
              (data.schedule_value.getD "")
              (computeNextRun env (data.schedule_type.getD "")
                (data.schedule_value.getD "")))
            tasks) := by
        unfold processTaskIpc
        simp [hty, hp, hst, hsv, hlany.1, hlany.2, hv]
      obtain ⟨t0, hm0, hp0, hfm⟩ := updateFirst_mem
        (labelMatches (ipcChatId data src) (data.label.getD ""))
        (scheduleUpd (data.prompt.getD "") (data.schedule_type.getD "")
          (data.schedule_value.getD "")
          (computeNextRun env (data.schedule_type.getD "")
            (data.schedule_value.getD "")))
        tasks hlany.2
      have hp0s : t0.chatId = ipcChatId data src := by
        simp [labelMatches] at hp0
        exact hp0.1
      refine ⟨_, _, hres, hfm, ?_, ?_, ?_, ?_, ?_, ?_, ?_⟩
      · simp [scheduleUpd, hp0s]
      · simp [scheduleUpd]
      · simp [scheduleUpd, hgetD]
      · simp [scheduleUpd]
      · simp [scheduleUpd, hnr]
      · simp [scheduleUpd]
      · intro env2
        simp [isDue, scheduleUpd, hnr]
    · have hres : processTaskIpc env fid data src tasks =
          some (tasks ++
            [⟨fid, ipcChatId data src,
              (if truthy data.label then data.label else none),
              data.prompt.getD "", data.schedule_type.getD "",
              data.schedule_value.getD "",
              computeNextRun env (data.schedule_type.getD "")
                (data.schedule_value.getD ""),
              "active", env.now⟩]) := by
        unfold processTaskIpc
        rw [if_pos hty,
          if_pos (show (truthy data.prompt && truthy data.schedule_type &&
            truthy data.schedule_value) = true by simp [hp, hst, hsv])]
        simp only []
        rw [if_neg hv, if_neg hlany]
      refine ⟨_, _, hres, List.mem_append_right tasks (List.mem_singleton_self _),
        rfl, rfl, hgetD, rfl, hnr, rfl, ?_⟩
      intro env2
      simp [isDue, hnr]
  · rintro ⟨hkind, hnone2⟩
    have hne : data.schedule_type.getD "" ≠ "once" := by
      rcases hkind with hk | hk <;> rw [hk] <;> decide
    unfold processTaskIpc
    rw [if_pos hty,
      if_pos (show (truthy data.prompt && truthy data.schedule_type &&
        truthy data.schedule_value) = true by simp [hp, hst, hsv])]
    simp only []
    rw [if_pos (And.intro hnone2 hne)]

theorem C9_witness :
    (∃ ts1 t, processTaskIpc c6Env "task-3" c9DataOnce "chat9" [] = some ts1 ∧
      t ∈ ts1 ∧ t.chatId = ipcChatId c9DataOnce "chat9" ∧
      t.prompt = c9DataOnce.prompt.getD "" ∧ t.schedule_type = "once" ∧
      t.schedule_value = c9DataOnce.schedule_value.getD "" ∧
      t.next_run = none ∧ t.status = "active" ∧
      ∀ env2, isDue env2 t = false) ∧
    processTaskIpc c6Env "task-4" c9DataCron "chat9" [] = none :=
  ⟨(C9_invalid_once_schedule_not_rejected c6Env "task-3" c9DataOnce "chat9" []
      rfl (by decide) (by decide) (by decide)).1 ⟨rfl, rfl⟩,
   (C9_invalid_once_schedule_not_rejected c6Env "task-4" c9DataCron "chat9" []
      rfl (by decide) (by decide) (by decide)).2 ⟨Or.inl rfl, by decide⟩⟩

theorem alSet_keys_subset {V : Type} (k : String) (v : V) :
    ∀ (m : List (String × V)) (x : String),
      x ∈ (alSet k v m).map Prod.fst → x ∈ m.map Prod.fst ∨ x = k := by
  intro m
  induction m with
  | nil =>
    intro x hx
    simp [alSet] at hx
    exact Or.inr hx
  | cons e rest ih =>
    obtain ⟨k2, v2⟩ := e
    intro x hx
    by_cases he : k2 = k
    · subst he
      simp [alSet] at hx
      rcases hx with hx | hx
      · exact Or.inr hx
      · exact Or.inl (by simp [hx])
    · simp [alSet, he] at hx
      rcases hx with hx | hx
      · exact Or.inl (by simp [hx])
      · rcases ih x (by simpa using hx) with h1 | h2
        · exact Or.inl (by simp; exact Or.inr (by simpa using h1))
        · exact Or.inr h2

theorem alSet_nodup_keys {V : Type} (k : String) (v : V) :
    ∀ m : List (String × V), (m.map Prod.fst).Nodup →
      ((alSet k v m).map Prod.fst).Nodup := by
  intro m
  induction m with
  | nil => intro _; simp [alSet]
  | cons e rest ih =>
    obtain ⟨k2, v2⟩ := e
    intro hnd
    simp only [List.map_cons, List.nodup_cons] at hnd
    by_cases he : k2 = k
    · subst he
      have hset : alSet k2 v ((k2, v2) :: rest) = (k2, v) :: rest := by
        simp [alSet]
      rw [hset]
      simp only [List.map_cons, List.nodup_cons]
      exact ⟨hnd.1, hnd.2⟩
    · simp only [alSet, if_neg he, List.map_cons, List.nodup_cons]
      refine ⟨?_, ih hnd.2⟩
      intro hmem
      rcases alSet_keys_subset k v rest k2 hmem with h1 | h2
      · exact hnd.1 h1
      · exact he h2

theorem alUpdate_keys {V : Type} (k : String) (f : V → V)
    (m : List (String × V)) :
    (alUpdate k f m).map Prod.fst = m.map Prod.fst := by
  unfold alUpdate
  induction m with
  | nil => rfl
  | cons e rest ih =>
    by_cases he : e.1 = k
    · simp [he, ih]
    · simp [he, ih]

theorem runRegistry_nodup_keys (ops : List RegistryOp) :
    ((runRegistry ops).map Prod.fst).Nodup := by
  unfold runRegistry
  have hgen : ∀ (m0 : List (String × ContainerStateM)),
      (m0.map Prod.fst).Nodup →
      ((ops.foldl applyRegistryOp m0).map Prod.fst).Nodup := by
    induction ops with
    | nil => intro m0 h0; exact h0
    | cons op rest ih =>
      intro m0 h0
      simp only [List.foldl_cons]
      apply ih
      cases op with
      | spawn c name sid t => exact alSet_nodup_keys c _ m0 h0
      | outputSession c sid =>
        simp only [applyRegistryOp]
        rw [alUpdate_keys]
        exact h0
      | followUpTouch c t =>
        simp only [applyRegistryOp]
        rw [alUpdate_keys]
        exact h0
      | remove c =>
        exact ((List.filter_sublist m0).map Prod.fst).nodup h0
  exact hgen [] (by simp)

theorem nodup_filter_key_le_one {V : Type} (m : List (String × V))
    (h : (m.map Prod.fst).Nodup) (c : String) :
    (m.filter (fun e => e.1 == c)).length ≤ 1 := by
  induction m with
  | nil => simp
  | cons e rest ih =>
    simp only [List.map_cons, List.nodup_cons] at h
    by_cases he : e.1 = c
    · have hrest : rest.filter (fun e2 => e2.1 == c) = [] := by
        rw [List.filter_eq_nil_iff]
        intro a ha hac
        apply h.1
        have hac2 : a.1 = c := by simpa using hac
        rw [he, ← hac2]
        exact List.mem_map_of_mem Prod.fst ha
      rw [List.filter_cons_of_pos (by simpa using he), hrest]
      simp
    · rw [List.filter_cons_of_neg (by simpa using he)]
      exact ih h.2

/-- C7.  Single-container invariant: starting from the empty registry, after
ANY sequence of the operations the orchestrator performs on `containers`
(spawn on message handling, session-id update on worker output, activity touch
on follow-ups, removal on idle timeout / worker exit / explicit reset), every
chatId is bound to at most one `ActiveContainer`. -/
theorem C7_single_container_per_chat (ops : List RegistryOp) (chatId : String) :
    ((runRegistry ops).filter (fun e => e.1 == chatId)).length ≤ 1 :=
  nodup_filter_key_le_one _ (runRegistry_nodup_keys ops) chatId

theorem jsSplitAt_pos (maxLen : Nat) (hm : 0 < maxLen) (r : List Char) :
    1 ≤ jsSplitAt maxLen r := by
  unfold jsSplitAt
  cases hl : jsLastIndexOfNewline r maxLen with
  | none =>
    show 1 ≤ maxLen
    omega
  | some i =>
    show 1 ≤ if i = 0 then maxLen else i
    by_cases hi : i = 0
    · rw [if_pos hi]
      omega
    · rw [if_neg hi]
      omega

theorem jsSplitAt_le (maxLen : Nat) (r : List Char) :
    jsSplitAt maxLen r ≤ maxLen := by
  unfold jsSplitAt
  cases hl : jsLastIndexOfNewline r maxLen with
  | none =>
    show maxLen ≤ maxLen
    exact le_refl maxLen
  | some i =>
    have hmem : i ∈ (List.range (maxLen + 1)).filter
        (fun j => r[j]? == some '\n') := by
      unfold jsLastIndexOfNewline at hl
      have hx : i ∈ ((List.range (maxLen + 1)).filter
          (fun j => r[j]? == some '\n')).getLast? := by
        rw [hl]
        exact Option.mem_some_iff.mpr rfl
      obtain ⟨hne, heq⟩ := List.mem_getLast?_eq_getLast hx
      rw [heq]
      exact List.getLast_mem hne
    have hrange : i ∈ List.range (maxLen + 1) := (List.mem_filter.mp hmem).1
    have hlt : i < maxLen + 1 := List.mem_range.mp hrange
    show (if i = 0 then maxLen else i) ≤ maxLen
    by_cases hi : i = 0
    · rw [if_pos hi]
    · rw [if_neg hi]
      omega

theorem splitGoF_spec (maxLen : Nat) (hm : 0 < maxLen) :
    ∀ (fuel : Nat) (r : List Char), r.length ≤ fuel →
      (splitGoF fuel maxLen r).flatten = r ∧
      ∀ c ∈ splitGoF fuel maxLen r, c.length ≤ maxLen := by
  intro fuel
  induction fuel with
  | zero =>
    intro r hr
    have : r = [] := List.length_eq_zero.mp (by omega)
    subst this
    simp [splitGoF]
  | succ n ih =>
    intro r hr
    by_cases h0 : r.length = 0
    · have : r = [] := List.length_eq_zero.mp h0
      subst this
      simp [splitGoF]
    · by_cases h1 : r.length ≤ maxLen
      · simp [splitGoF, h0, h1]
      · have hk1 := jsSplitAt_pos maxLen hm r
        have hk2 := jsSplitAt_le maxLen r
        have hdrop : (r.drop (jsSplitAt maxLen r)).length ≤ n := by
          simp only [List.length_drop]
          omega
        obtain ⟨ihf, ihb⟩ := ih (r.drop (jsSplitAt maxLen r)) hdrop
        refine ⟨?_, ?_⟩
        · simp only [splitGoF, h0, if_false, h1, List.flatten_cons, ihf]
          simp [List.take_append_drop]
        · intro c hc
          simp only [splitGoF, h0, if_false, h1, List.mem_cons] at hc
          rcases hc with hc | hc
          · subst hc
            simp only [List.length_take]
            omega
          · exact ihb c hc

/-- C10.  Lossless message splitting: for every text, `splitMessage(text, 4096)`
returns chunks each of length at most 4096 whose concatenation is exactly the
input text, and a text of length at most 4096 is returned as the single-element
list `[text]`. -/
theorem C10_splitMessage_lossless (text : List Char) :
    (splitMessage text 4096).flatten = text ∧
    (∀ c ∈ splitMessage text 4096, c.length ≤ 4096) ∧
    (text.length ≤ 4096 → splitMessage text 4096 = [text]) := by
  unfold splitMessage
  by_cases h : text.length ≤ 4096
  · simp [h]
  · rw [if_neg h]
    obtain ⟨hf, hb⟩ := splitGoF_spec 4096 (by omega) text.length text (le_refl _)
    exact ⟨hf, hb, fun hc => absurd hc h⟩

theorem C10_witness : splitMessage "ab".toList 4096 = ["ab".toList] :=
  (C10_splitMessage_lossless "ab".toList).2.2 (by decide)

theorem char_toNat_valid (c : Char) :
    c.toNat < 0xD800 ∨ (0xDFFF < c.toNat ∧ c.toNat < 0x110000) := by
  have h := c.valid
  simpa [UInt32.isValidChar, Nat.isValidChar] using h

theorem utf8DecodeLoop_cons (st : Utf8State) (b : Nat) (bs : List Nat) :
    utf8DecodeLoop st (b :: bs) =
      (utf8Step st b).1 ++ utf8DecodeLoop (utf8Step st b).2 bs := rfl

theorem utf8Step_ascii (b : Nat) (h : b ≤ 0x7F) :
    utf8Step utf8Init b = ([uchar b], utf8Init) := by
  unfold utf8Step utf8Lead utf8Init
  simp [h]

theorem utf8Step_lead2 (b : Nat) (h1 : 0xC2 ≤ b) (h2 : b ≤ 0xDF) :
    utf8Step utf8Init b = ([], ⟨1, b - 0xC0, 0x80, 0xBF⟩) := by
  unfold utf8Step utf8Lead utf8Init
  have hna : ¬ b ≤ 0x7F := by omega
  simp [hna, h1, h2]

theorem utf8Step_lead3 (b : Nat) (h1 : 0xE0 ≤ b) (h2 : b ≤ 0xEF) :
    utf8Step utf8Init b =
      ([], ⟨2, b - 0xE0, (if b = 0xE0 then 0xA0 else 0x80),
            (if b = 0xED then 0x9F else 0xBF)⟩) := by
  unfold utf8Step utf8Lead utf8Init
  have hna : ¬ b ≤ 0x7F := by omega
  have hnb : ¬ b ≤ 0xDF := by omega
  simp [hna, hnb, h1, h2]

theorem utf8Step_lead4 (b : Nat) (h1 : 0xF0 ≤ b) (h2 : b ≤ 0xF4) :
    utf8Step utf8Init b =
      ([], ⟨3, b - 0xF0, (if b = 0xF0 then 0x90 else 0x80),
            (if b = 0xF4 then 0x8F else 0xBF)⟩) := by
  unfold utf8Step utf8Lead utf8Init
  have hna : ¬ b ≤ 0x7F := by omega
  have hnb : ¬ b ≤ 0xDF := by omega
  have hnc : ¬ b ≤ 0xEF := by omega
  simp [hna, hnb, hnc, h1, h2]

theorem utf8Step_cont_last (p l u b : Nat) (h1 : l ≤ b) (h2 : b ≤ u) :
    utf8Step ⟨1, p, l, u⟩ b = ([uchar (p * 0x40 + (b - 0x80))], utf8Init) := by
  unfold utf8Step
  simp [h1, h2]

theorem utf8Step_cont2 (p l u b : Nat) (h1 : l ≤ b) (h2 : b ≤ u) :
    utf8Step ⟨2, p, l, u⟩ b = ([], ⟨1, p * 0x40 + (b - 0x80), 0x80, 0xBF⟩) := by
  unfold utf8Step
  simp [h1, h2]

theorem utf8Step_cont3 (p l u b : Nat) (h1 : l ≤ b) (h2 : b ≤ u) :
    utf8Step ⟨3, p, l, u⟩ b = ([], ⟨2, p * 0x40 + (b - 0x80), 0x80, 0xBF⟩) := by
  unfold utf8Step
  simp [h1, h2]

/-- Round trip of one character: the WHATWG decoder consumes the UTF-8
encoding of any scalar value completely, emits exactly that character, and
returns to the initial state. -/
theorem utf8DecodeLoop_encodeChar (c : Char) (bs : List Nat) :
    utf8DecodeLoop utf8Init (utf8EncodeChar c ++ bs) =
      c :: utf8DecodeLoop utf8Init bs := by
  have hv := char_toNat_valid c
  have huc : uchar c.toNat = c := Char.ofNat_toNat c
  by_cases h1 : c.toNat ≤ 0x7F
  · have he : utf8EncodeChar c = [c.toNat] := by
      unfold utf8EncodeChar
      rw [if_pos h1]
    rw [he]
    simp only [List.cons_append, List.nil_append]
    rw [utf8DecodeLoop_cons, utf8Step_ascii c.toNat h1]
    dsimp only
    rw [huc, List.singleton_append]
  · by_cases h2 : c.toNat ≤ 0x7FF
    · have he : utf8EncodeChar c =
          [0xC0 + c.toNat / 0x40, 0x80 + c.toNat % 0x40] := by
        unfold utf8EncodeChar
        rw [if_neg h1, if_pos h2]
      rw [he]
      simp only [List.cons_append, List.nil_append]
      rw [utf8DecodeLoop_cons, utf8Step_lead2 (0xC0 + c.toNat / 0x40)
        (by omega) (by omega)]
      dsimp only
      rw [List.nil_append, utf8DecodeLoop_cons,
        utf8Step_cont_last (0xC0 + c.toNat / 0x40 - 0xC0) 0x80 0xBF
          (0x80 + c.toNat % 0x40) (by omega) (by omega)]
      dsimp only
      have harg : (0xC0 + c.toNat / 0x40 - 0xC0) * 0x40 +
          (0x80 + c.toNat % 0x40 - 0x80) = c.toNat := by omega
      rw [harg, huc, List.singleton_append]
    · by_cases h3 : c.toNat ≤ 0xFFFF
      · have he : utf8EncodeChar c =
            [0xE0 + c.toNat / 0x1000, 0x80 + (c.toNat / 0x40) % 0x40,
             0x80 + c.toNat % 0x40] := by
          unfold utf8EncodeChar
          rw [if_neg h1, if_neg h2, if_pos h3]
        have hlb : (if (0xE0 + c.toNat / 0x1000) = 0xE0 then 0xA0 else 0x80) ≤
            0x80 + (c.toNat / 0x40) % 0x40 := by
          by_cases hE0 : (0xE0 + c.toNat / 0x1000) = 0xE0
          · rw [if_pos hE0]
            omega
          · rw [if_neg hE0]
            omega
        have hub : 0x80 + (c.toNat / 0x40) % 0x40 ≤
            (if (0xE0 + c.toNat / 0x1000) = 0xED then 0x9F else 0xBF) := by
          by_cases hED : (0xE0 + c.toNat / 0x1000) = 0xED
          · rw [if_pos hED]
            rcases hv with h | h
            · omega
            · omega
          · rw [if_neg hED]
            omega
        rw [he]
        simp only [List.cons_append, List.nil_append]
        rw [utf8DecodeLoop_cons, utf8Step_lead3 (0xE0 + c.toNat / 0x1000)
          (by omega) (by omega)]
        dsimp only
        rw [List.nil_append, utf8DecodeLoop_cons,
          utf8Step_cont2 (0xE0 + c.toNat / 0x1000 - 0xE0)
            (if (0xE0 + c.toNat / 0x1000) = 0xE0 then 0xA0 else 0x80)
            (if (0xE0 + c.toNat / 0x1000) = 0xED then 0x9F else 0xBF)
            (0x80 + (c.toNat / 0x40) % 0x40) hlb hub]
        dsimp only
        rw [List.nil_append, utf8DecodeLoop_cons,
          utf8Step_cont_last
            ((0xE0 + c.toNat / 0x1000 - 0xE0) * 0x40 +
              (0x80 + (c.toNat / 0x40) % 0x40 - 0x80)) 0x80 0xBF
            (0x80 + c.toNat % 0x40) (by omega) (by omega)]
        dsimp only
        have harg : ((0xE0 + c.toNat / 0x1000 - 0xE0) * 0x40 +
            (0x80 + (c.toNat / 0x40) % 0x40 - 0x80)) * 0x40 +
            (0x80 + c.toNat % 0x40 - 0x80) = c.toNat := by omega
        rw [harg, huc, List.singleton_append]
      · have hlt : c.toNat < 0x110000 := by
          rcases hv with h | h
          · omega
          · exact h.2
        have he : utf8EncodeChar c =
            [0xF0 + c.toNat / 0x40000, 0x80 + (c.toNat / 0x1000) % 0x40,
             0x80 + (c.toNat / 0x40) % 0x40, 0x80 + c.toNat % 0x40] := by
          unfold utf8EncodeChar
          rw [if_neg h1, if_neg h2, if_neg h3]
        have hlb : (if (0xF0 + c.toNat / 0x40000) = 0xF0 then 0x90 else 0x80) ≤
            0x80 + (c.toNat / 0x1000) % 0x40 := by
          by_cases hF0 : (0xF0 + c.toNat / 0x40000) = 0xF0
          · rw [if_pos hF0]
            omega
          · rw [if_neg hF0]
            omega
        have hub : 0x80 + (c.toNat / 0x1000) % 0x40 ≤
            (if (0xF0 + c.toNat / 0x40000) = 0xF4 then 0x8F else 0xBF) := by
          by_cases hF4 : (0xF0 + c.toNat / 0x40000) = 0xF4
          · rw [if_pos hF4]
            omega
          · rw [if_neg hF4]
            omega
        rw [he]
        simp only [List.cons_append, List.nil_append]
        rw [utf8DecodeLoop_cons, utf8Step_lead4 (0xF0 + c.toNat / 0x40000)
          (by omega) (by omega)]
        dsimp only
        rw [List.nil_append, utf8DecodeLoop_cons,
          utf8Step_cont3 (0xF0 + c.toNat / 0x40000 - 0xF0)
            (if (0xF0 + c.toNat / 0x40000) = 0xF0 then 0x90 else 0x80)
            (if (0xF0 + c.toNat / 0x40000) = 0xF4 then 0x8F else 0xBF)
            (0x80 + (c.toNat / 0x1000) % 0x40) hlb hub]
        dsimp only
        rw [List.nil_append, utf8DecodeLoop_cons,
          utf8Step_cont2
            ((0xF0 + c.toNat / 0x40000 - 0xF0) * 0x40 +
              (0x80 + (c.toNat / 0x1000) % 0x40 - 0x80)) 0x80 0xBF
            (0x80 + (c.toNat / 0x40) % 0x40) (by omega) (by omega)]
        dsimp only
        rw [List.nil_append, utf8DecodeLoop_cons,
          utf8Step_cont_last
            (((0xF0 + c.toNat / 0x40000 - 0xF0) * 0x40 +
              (0x80 + (c.toNat / 0x1000) % 0x40 - 0x80)) * 0x40 +
              (0x80 + (c.toNat / 0x40) % 0x40 - 0x80)) 0x80 0xBF
            (0x80 + c.toNat % 0x40) (by omega) (by omega)]
        dsimp only
        have harg : (((0xF0 + c.toNat / 0x40000 - 0xF0) * 0x40 +
            (0x80 + (c.toNat / 0x1000) % 0x40 - 0x80)) * 0x40 +
            (0x80 + (c.toNat / 0x40) % 0x40 - 0x80)) * 0x40 +
            (0x80 + c.toNat % 0x40 - 0x80) = c.toNat := by omega
        rw [harg, huc, List.singleton_append]

/-- Decoding is a left inverse of encoding: a byte chunk that is a whole
number of UTF-8-encoded characters decodes to exactly those characters. -/
theorem utf8Decode_encode (cs : List Char) :
    utf8Decode (utf8Encode cs) = cs := by
  induction cs with
  | nil => rfl
  | cons c rest ih =>
    show utf8DecodeLoop utf8Init (utf8EncodeChar c ++ utf8Encode rest) = c :: rest
    rw [utf8DecodeLoop_encodeChar]
    exact congrArg (c :: ·) ih

/-- A byte chunking whose boundaries do not split any character behaves like
the corresponding character chunking. -/
theorem runByteStream_map_encode (jparse : List Char → Option ContainerOutput)
    (ccs : List (List Char)) :
    runByteStream jparse (ccs.map utf8Encode) = runStream jparse ccs := by
  unfold runByteStream runStream
  rw [List.foldl_map]
  have hfun : (fun (st : StreamState) (cs : List Char) =>
      onData jparse st (utf8Decode (utf8Encode cs))) = onData jparse := by
    funext st cs
    rw [utf8Decode_encode]
  rw [hfun]

/-- C1 (amended).  Chunk-invariance of the output framer holds for every
choice of byte-level chunk boundaries that does not split a multi-byte UTF-8
character: if each delivered chunk is a whole number of encoded characters,
the per-chunk `data.toString()` decodes compose, and the parser delivers the
same parsed frames, in the same order, to the `onOutput` callback as when the
entire byte stream arrives in one chunk. -/
theorem C1_amended (jparse : List Char → Option ContainerOutput)
    (charChunks : List (List Char)) :
    (runByteStream jparse (charChunks.map utf8Encode)).delivered =
      (runByteStream jparse [utf8Encode charChunks.flatten]).delivered := by
  rw [runByteStream_map_encode]
  have h2 : runByteStream jparse [utf8Encode charChunks.flatten] =
      runStream jparse [charChunks.flatten] := by
    have h3 := runByteStream_map_encode jparse [charChunks.flatten]
    simpa using h3
  rw [h2]
  exact runStream_chunk_invariant jparse charChunks

/-- C1 counterexample: the claim as stated — invariance for EVERY choice of
byte-stream chunk boundaries — is false.  `c1Bytes` is one well-formed
marker-delimited frame whose body is the two-byte character U+00E9
(`0xC3 0xA9` at indices 27/28).  Splitting the same byte stream between those
two bytes makes each `data.toString()` turn the halves into U+FFFD
replacement characters, so the split run delivers a frame parsed from the
garbled body while the one-chunk run delivers the frame parsed from the
intact body. -/
theorem C1_counterexample :
    (runByteStream c1Jparse [c1Bytes.take 28, c1Bytes.drop 28]).delivered ≠
      (runByteStream c1Jparse [c1Bytes]).delivered ∧
    c1Bytes.take 28 ++ c1Bytes.drop 28 = c1Bytes ∧
    (runByteStream c1Jparse [c1Bytes]).delivered = [c1FrameA] ∧
    (runByteStream c1Jparse
        [c1Bytes.take 28, c1Bytes.drop 28]).delivered = [c1FrameB] :=
  ⟨by decide, by decide, by decide, by decide⟩
